import Mathlib

/-!
Shallow embedding of `src/auto_reboot_tool.py` (Intersect Engine Auto Reboot
Tool): the schedule calculator (`get_next_reboot_time`), the announcement
planner (`schedule_announcements`), the process controller
(`send_command`, `start_server`, the stop escalation inside `reboot_cycle`,
and the `stop` method), and the supervisor loop (`reboot_cycle`).

Wall-clock instants are modelled as integer seconds (`Int`); `datetime.now()`
becomes an arbitrary `now : Int`, `now.replace(hour=h, minute=m, second=0,
microsecond=0)` becomes the start of `now`'s day plus `h` hours and `m`
minutes, and `timedelta(days=1)` is `+ 86400`.
-/

namespace AutoReboot

/-- Seconds in one day (`timedelta(days=1)`). -/
def secondsPerDay : Int := 86400

/-- Midnight of the day containing instant `t`:
`t.replace(hour=0, minute=0, second=0, microsecond=0)`. -/
def startOfDay (t : Int) : Int := t - t.emod secondsPerDay

/-- Builds a concrete instant from a day index and hour/minute/second of day
(used for concrete scenarios only). -/
def mkTime (day h m s : Nat) : Int := ((day * 86400 + h * 3600 + m * 60 + s : Nat) : Int)

/-- One element of the `reboot_schedule` configuration list.  `enabled = none`
models a JSON object with no `"enabled"` key (the source reads it with
`schedule.get("enabled", True)`).  `hour`/`minute` are the values stored in the
config; `datetime.replace` validates them to 0-23 / 0-59 upstream. -/
structure ScheduleEntry where
  hour : Nat
  minute : Nat
  enabled : Option Bool
deriving DecidableEq

/-- The guard `schedule.get("enabled", True)` from `get_next_reboot_time`:
an entry counts as enabled unless the field is present and false. -/
def entryEnabled (e : ScheduleEntry) : Bool := e.enabled.getD true

/-- `now.replace(hour=hour, minute=minute, second=0, microsecond=0)`. -/
def entryTimeToday (now : Int) (e : ScheduleEntry) : Int :=
  startOfDay now + e.hour * 3600 + e.minute * 60

/-- The per-entry candidate of `get_next_reboot_time`: today's instant at
`(hour, minute)`, pushed to tomorrow when it has already passed
(`if reboot_time <= now: reboot_time += timedelta(days=1)`). -/
def candidateTime (now : Int) (e : ScheduleEntry) : Int :=
  let reboot_time := entryTimeToday now e
  if reboot_time ≤ now then reboot_time + secondsPerDay else reboot_time

/-- `AutoRebootTool.get_next_reboot_time` (source lines 208-230): collect the
candidate instant of every enabled entry, return `None` when the list is
empty, else Python's `min` of the list. -/
def get_next_reboot_time (now : Int) (schedule : List ScheduleEntry) : Option Int :=
  match (schedule.filter entryEnabled).map (candidateTime now) with
  | [] => none
  | t :: rest => some (rest.foldl min t)

/-- The schedule calculator as the specification words it (for the refinement
claim): for each enabled entry construct today's date at
`(hour, minute, second=0)`, advance it by one day when that instant is ≤ `now`,
and return the minimum across all entries, or `none` if no entries are
enabled. -/
def nextRebootTime (now : Int) (schedule : List ScheduleEntry) : Option Int :=
  ((schedule.filter entryEnabled).map (fun e =>
    let c := startOfDay now + e.hour * 3600 + e.minute * 60
    if c ≤ now then c + secondsPerDay else c)).min?

/-! Announcement planner.  Python string operations are modelled over
`List Char` with structurally recursive functions so that every definition
evaluates by kernel reduction. -/

/-- Whether `pat` is a prefix of `s` (character lists). -/
def startsWithL : List Char → List Char → Bool
  | _, [] => true
  | [], _ :: _ => false
  | a :: as, b :: bs => a == b && startsWithL as bs

/-- Python's substring test `pat in s` (character lists). -/
def hasSubL : List Char → List Char → Bool
  | s, pat =>
    startsWithL s pat ||
      match s with
      | [] => false
      | _ :: rest => hasSubL rest pat

/-- Replaces every non-overlapping occurrence of `pat` in `s` by `repl`,
scanning left to right.  `fuel` bounds the recursion; `s.length` steps always
suffice because each step consumes at least one character of `s`. -/
def replAllAux : Nat → List Char → List Char → List Char → List Char
  | 0, _, _, s => s
  | fuel + 1, pat, repl, s =>
    match s with
    | [] => []
    | c :: rest =>
      if startsWithL s pat && !pat.isEmpty then
        repl ++ replAllAux fuel pat repl (s.drop pat.length)
      else c :: replAllAux fuel pat repl rest

/-- Python's substring test `pat in s` on strings. -/
def strHasSub (s pat : String) : Bool := hasSubL s.data pat.data

/-- Models `s.format(name=value)` for a template whose only replacement field
is `pat` (the source guards each call with a `pat in s` membership test, and
the configuration templates carry a single placeholder): every occurrence of
`pat` is replaced by `repl`. -/
def strSubst (s pat repl : String) : String :=
  String.mk (replAllAux s.data.length pat.data repl.data s.data)

/-- Decimal digits of a natural number, most significant first.  `fuel`
bounds the recursion; `n + 1` steps always suffice. -/
def natCharsAux : Nat → Nat → List Char → List Char
  | 0, _, acc => acc
  | fuel + 1, n, acc =>
    let d := Char.ofNat (48 + n % 10)
    if n < 10 then d :: acc else natCharsAux fuel (n / 10) (d :: acc)

/-- Python's `str(i)` for an integer. -/
def intStr (i : Int) : String :=
  if i < 0 then String.mk ('-' :: natCharsAux (i.natAbs + 1) i.natAbs [])
  else String.mk (natCharsAux (i.natAbs + 1) i.natAbs [])

/-- One element of the `announcement_intervals` configuration list.  A field
is `none` when the JSON object lacks the corresponding key (the source tests
key membership with `"seconds_before" in interval`). -/
structure AnnouncementRule where
  seconds_before : Option Int
  minutes_before : Option Int
  message : String
deriving DecidableEq

/-- A timer armed by the planner: absolute fire instant and rendered text. -/
structure ScheduledAnnouncement where
  fireAt : Int
  message : String
deriving DecidableEq

/-- The sort key of `schedule_announcements` (source lines 237-242): seconds
if present, else minutes converted to seconds, else 0. -/
def get_seconds_before (iv : AnnouncementRule) : Int :=
  match iv.seconds_before with
  | some s => s
  | none =>
    match iv.minutes_before with
    | some m => m * 60
    | none => 0

/-- Stable insertion into a list kept in descending key order: `x` goes in
front of the first element whose key is not larger. -/
def insDesc (k : AnnouncementRule → Int) (x : AnnouncementRule) :
    List AnnouncementRule → List AnnouncementRule
  | [] => [x]
  | y :: ys => if k y ≤ k x then x :: y :: ys else y :: insDesc k x ys

/-- Python's `sorted(l, key=k, reverse=True)`: a stable descending sort. -/
def sortDesc (k : AnnouncementRule → Int) : List AnnouncementRule → List AnnouncementRule
  | [] => []
  | x :: xs => insDesc k x (sortDesc k xs)

/-- The loop body of `schedule_announcements` for one interval (source lines
250-277): pick the declared unit (`seconds_before` takes precedence, the
source's `elif`), compute `announcement_time = reboot_time - offset`, render
the message (substitute the offset value when the unit's placeholder occurs in
the template, else keep the template verbatim), and arm a timer only when
`announcement_time > now`.  A rule with neither offset yields `none` (the
source's bare `continue`). -/
def processInterval (reboot_time now : Int) (iv : AnnouncementRule) :
    Option ScheduledAnnouncement :=
  match iv.seconds_before with
  | some seconds_before =>
    let announcement_time := reboot_time - seconds_before
    let message :=
      if strHasSub iv.message "{seconds}" then
        strSubst iv.message "{seconds}" (intStr seconds_before)
      else iv.message
    if now < announcement_time then some ⟨announcement_time, message⟩ else none
  | none =>
    match iv.minutes_before with
    | some minutes_before =>
      let announcement_time := reboot_time - minutes_before * 60
      let message :=
        if strHasSub iv.message "{minutes}" then
          strSubst iv.message "{minutes}" (intStr minutes_before)
        else iv.message
      if now < announcement_time then some ⟨announcement_time, message⟩ else none
    | none => none

/-- `AutoRebootTool.schedule_announcements` (source lines 232-277), viewed as
the list of timers it arms: intervals sorted by descending offset, each mapped
through `processInterval`, invalid and already-missed rules dropped. -/
def schedule_announcements (reboot_time now : Int) (intervals : List AnnouncementRule) :
    List ScheduledAnnouncement :=
  (sortDesc get_seconds_before intervals).filterMap (processInterval reboot_time now)

/-- The observable side effects of `schedule_announcements`, in program order.
For every armed timer the source also emits exactly one info-level log line
("Scheduled announcement for ...").  The skip paths (invalid rule, missed
rule) emit nothing. -/
inductive PlanEvent
  | timerArmed (fireAt : Int) (message : String)
  | infoLog (fireAt : Int) (message : String)
deriving DecidableEq

/-- The event trace of `schedule_announcements`: per armed timer, the
`threading.Timer(...).start()` call followed by its log line. -/
def announce_events (reboot_time now : Int) (intervals : List AnnouncementRule) :
    List PlanEvent :=
  (schedule_announcements reboot_time now intervals).foldr
    (fun a acc => PlanEvent.timerArmed a.fireAt a.message ::
      PlanEvent.infoLog a.fireAt a.message :: acc) []

/-- The computed fire instant of a rule (`reboot_time - offset`), independent
of the drop decision; `none` for a rule carrying neither offset. -/
def fireTimeOf (reboot_time : Int) (iv : AnnouncementRule) : Option Int :=
  match iv.seconds_before with
  | some s => some (reboot_time - s)
  | none =>
    match iv.minutes_before with
    | some m => some (reboot_time - m * 60)
    | none => none

/-! Process controller and supervisor loop.  Side-effecting methods are
modelled by the traces of observable actions they perform, driven by oracles
describing the child process's behaviour. -/

/-- State of the pipe attached to the child's standard input: `broken` stands
for a pipe whose write or flush raises (closed or broken pipe). -/
inductive PipeState
  | ok
  | broken
deriving DecidableEq

/-- The slice of a `subprocess.Popen` handle that `send_command` reads:
`stdinPipe = none` models `self.server_process.stdin is None`. -/
structure ChildHandle where
  stdinPipe : Option PipeState
deriving DecidableEq

/-- `AutoRebootTool.send_command` (source lines 177-190), as its returned
success flag: `False` when no child is attached (`self.server_process` is
`None`, e.g. after the handle was cleared) or stdin is unavailable, and
`False` when the write raises (the `except` clause logs and returns).  The
function is total: every failure is a returned `false`, never a propagated
exception. -/
def send_command (server_process : Option ChildHandle) (command : String) : Bool :=
  match server_process with
  | none => false
  | some p =>
    match p.stdinPipe with
    | none => false
    | some PipeState.ok => true
    | some PipeState.broken => false

/-- Observable actions of the controller and supervisor, in program order. -/
inductive Ev
  | spawnChild
  | primeStdin
  | sleep (seconds : Int)
  | sendCmd (command : String)
  | waitExit (timeout : Option Int)
  | terminateProc
  | killProc
  | setRunning (b : Bool)
  | joinThread (timeout : Int)
  | armTimers
  | clearProc
deriving DecidableEq

/-- Oracle for the scheduled stop sequence: whether the child exits during
the 60-unit wait that follows the cooperative `exit` command, and whether it
exits during the 5-unit sleep that follows `terminate()`. -/
structure ChildBehavior where
  exitsWithin60 : Bool
  exitsAfterTerm : Bool
deriving DecidableEq

/-- The scheduled stop sequence of `reboot_cycle` (source lines 312-325):
`send_command("exit")`, `wait_for_server_exit(timeout=60)`; if the child is
still alive, `terminate()` then `time.sleep(5)`; if still alive, `kill()`. -/
def stopEscalationEvents (c : ChildBehavior) : List Ev :=
  [Ev.sendCmd "exit", Ev.waitExit (some 60)] ++
    (if !c.exitsWithin60 then
      [Ev.terminateProc, Ev.sleep 5] ++ (if !c.exitsAfterTerm then [Ev.killProc] else [])
    else [])

/-- Oracle for the `stop` method: whether a child is attached and alive on
entry, and whether it exits during the 30-unit wait after the exit command. -/
structure ChildStopBehavior where
  aliveAtStop : Bool
  exitsWithin30 : Bool
deriving DecidableEq

/-- `AutoRebootTool.stop` (source lines 354-370): set `running = False`; if a
child is attached and alive, `send_command("exit")`,
`wait_for_server_exit(timeout=30)`, and `terminate()` if it is still alive;
finally join the control thread with a 10-unit timeout. -/
def stop_events (c : ChildStopBehavior) : List Ev :=
  Ev.setRunning false ::
    ((if c.aliveAtStop then
        [Ev.sendCmd "exit", Ev.waitExit (some 30)] ++
          (if !c.exitsWithin30 then [Ev.terminateProc] else [])
      else []) ++ [Ev.joinThread 10])

/-- Oracle for `start_server`: whether the executable path resolves, whether
spawning raises, and whether the child has already exited when the 3-unit
grace sleep ends (`self.server_process.poll() is not None`). -/
structure StartEnv where
  exeFound : Bool
  spawnRaises : Bool
  exitsDuringGrace : Bool
deriving DecidableEq

/-- `AutoRebootTool.start_server` (source lines 56-175), as its event trace
and returned success flag: resolve the executable (failure returns `False`),
spawn the child with stdin piped, prime stdin with a blank line, sleep the
3-unit grace period, then poll — if the child has already exited, log
best-effort diagnostics and return `False`, else return `True`.  A raised
exception is caught and returned as `False`. -/
def start_server (env : StartEnv) : List Ev × Bool :=
  if !env.exeFound then ([], false)
  else if env.spawnRaises then ([], false)
  else ([Ev.spawnChild, Ev.primeStdin, Ev.sleep 3],
    if env.exitsDuringGrace then false else true)

/-- The world as one iteration of `reboot_cycle` observes it.  The oracle is
held fixed across iterations of the fuelled loop below: it models a run during
which the answers the environment gives do not change. -/
structure CycleEnv where
  running : Bool
  procAliveAtTop : Bool
  startEnv : StartEnv
  now : Int
  schedule : List ScheduleEntry
  intervals : List AnnouncementRule
  restart_delay_seconds : Int
  stopBehavior : ChildBehavior
deriving DecidableEq

/-- The tail of one `reboot_cycle` iteration once a child is running (source
lines 292-333): compute the next reboot instant (idle-sleep 3600 and restart
the cycle when the schedule has no enabled entry), arm the announcement
timers, sleep until the reboot instant when it is still ahead, run the stop
escalation, sleep the restart delay, and clear the child reference. -/
def cycleRest (env : CycleEnv) : List Ev :=
  match get_next_reboot_time env.now env.schedule with
  | none => [Ev.sleep 3600]
  | some next_reboot =>
    let wait_seconds := next_reboot - env.now
    Ev.armTimers ::
      ((if 0 < wait_seconds then [Ev.sleep wait_seconds] else []) ++
        stopEscalationEvents env.stopBehavior ++
        [Ev.sleep env.restart_delay_seconds, Ev.clearProc])

/-- One iteration of the `reboot_cycle` loop body (source lines 283-333): if
no child is attached or the attached child has exited, call `start_server`;
on failure log and sleep 60 units, then restart the cycle (`continue`); on
success, or when a child was already alive, run the rest of the cycle. -/
def loopBody (env : CycleEnv) : List Ev :=
  if !env.procAliveAtTop then
    match start_server env.startEnv with
    | (evs, false) => evs ++ [Ev.sleep 60]
    | (evs, true) => evs ++ cycleRest env
  else cycleRest env

/-- The fuelled `while self.running` loop of `reboot_cycle`: each iteration
appends its loop-body trace; the loop only stops when `running` is false (or
the fuel runs out — the real loop is unbounded). -/
def reboot_cycle : Nat → CycleEnv → List Ev
  | 0, _ => []
  | fuel + 1, env =>
    if env.running then loopBody env ++ reboot_cycle fuel env
    else []

/-- Every per-entry candidate lies strictly in the future: today's instant at
`(hour, minute)` is pushed one day forward exactly when it is ≤ `now`, and one
day always jumps past `now`. -/
lemma lt_candidateTime (now : Int) (e : ScheduleEntry) : now < candidateTime now e := by
  have h1 : 0 ≤ now.emod 86400 := Int.emod_nonneg now (by decide)
  have h2 : now.emod 86400 < 86400 := Int.emod_lt_of_pos now (by decide)
  by_cases h : entryTimeToday now e ≤ now
  · have hc : candidateTime now e = entryTimeToday now e + secondsPerDay := by
      unfold candidateTime; rw [if_pos h]
    rw [hc]
    unfold entryTimeToday startOfDay secondsPerDay at *
    omega
  · have hc : candidateTime now e = entryTimeToday now e := by
      unfold candidateTime; rw [if_neg h]
    rw [hc]
    omega

/-- A left fold of `min` over integers all above a bound stays above it. -/
lemma lt_foldl_min (now : Int) : ∀ (l : List Int) (a : Int),
    now < a → (∀ x ∈ l, now < x) → now < l.foldl min a
  | [], _, ha, _ => ha
  | b :: l, a, ha, hl =>
    lt_foldl_min now l (min a b)
      (lt_min ha (hl b (List.mem_cons_self b l)))
      (fun x hx => hl x (List.mem_cons_of_mem b hx))

/-- A timer armed by `processInterval` always fires strictly after `now`: the
`some` constructor only appears under the guard `now < announcement_time`. -/
lemma processInterval_fireAt (reboot_time now : Int) (iv : AnnouncementRule)
    (a : ScheduledAnnouncement) (h : processInterval reboot_time now iv = some a) :
    now < a.fireAt := by
  unfold processInterval at h
  cases hs : iv.seconds_before with
  | some s =>
    rw [hs] at h
    dsimp only at h
    split at h
    · obtain rfl := Option.some.inj h
      assumption
    · exact absurd h (by simp)
  | none =>
    rw [hs] at h
    cases hm : iv.minutes_before with
    | some m =>
      rw [hm] at h
      dsimp only at h
      split at h
      · obtain rfl := Option.some.inj h
        assumption
      · exact absurd h (by simp)
    | none =>
      rw [hm] at h
      exact absurd h (by simp)

/-- Inserting an element the filter map sends to `none` leaves the filter map
unchanged, wherever the stable descending insertion places it. -/
lemma filterMap_insDesc (f : AnnouncementRule → Option ScheduledAnnouncement)
    (k : AnnouncementRule → Int) (x : AnnouncementRule) (hx : f x = none) :
    ∀ l : List AnnouncementRule, (insDesc k x l).filterMap f = l.filterMap f
  | [] => by simp [insDesc, hx]
  | y :: ys => by
    unfold insDesc
    split
    · simp [List.filterMap_cons, hx]
    · simp [List.filterMap_cons, filterMap_insDesc f k x hx ys]

/-- C1: given a child that never exits voluntarily, the scheduled stop
sequence of `reboot_cycle` issues exactly one cooperative `exit` command,
waits up to 60 time units for exit, then issues one terminate request, waits
5 time units, then issues a forceful kill — in that order, with no tier
skipped. -/
theorem c1_scheduled_stop_full_escalation :
    stopEscalationEvents ⟨false, false⟩ =
      [Ev.sendCmd "exit", Ev.waitExit (some 60), Ev.terminateProc, Ev.sleep 5,
        Ev.killProc] ∧
    (stopEscalationEvents ⟨false, false⟩).count (Ev.sendCmd "exit") = 1 ∧
    (stopEscalationEvents ⟨false, false⟩).count Ev.terminateProc = 1 ∧
    (stopEscalationEvents ⟨false, false⟩).count Ev.killProc = 1 := by
  decide

/-- C2: for every schedule with at least one enabled entry and every `now`,
`get_next_reboot_time` returns an instant strictly greater than `now`; with
the single enabled entry 04:00 and `now` = 04:00:01, the result is 04:00:00
of the next day. -/
theorem c2_next_reboot_strictly_future (now : Int) (schedule : List ScheduleEntry)
    (h : ∃ e ∈ schedule, entryEnabled e = true) :
    ((get_next_reboot_time now schedule).isSome = true ∧
      ∀ r, get_next_reboot_time now schedule = some r → now < r) ∧
    get_next_reboot_time (mkTime 5 4 0 1) [⟨4, 0, some true⟩] = some (mkTime 6 4 0 0) := by
  refine ⟨?_, by decide⟩
  obtain ⟨e, he, hen⟩ := h
  have hmem : e ∈ schedule.filter entryEnabled := List.mem_filter.mpr ⟨he, hen⟩
  have hall : ∀ x ∈ (schedule.filter entryEnabled).map (candidateTime now), now < x := by
    intro x hx
    obtain ⟨e2, _, rfl⟩ := List.mem_map.mp hx
    exact lt_candidateTime now e2
  cases hl : (schedule.filter entryEnabled).map (candidateTime now) with
  | nil =>
    rw [List.map_eq_nil_iff] at hl
    rw [hl] at hmem
    exact absurd hmem (List.not_mem_nil e)
  | cons t rest =>
    have hval : get_next_reboot_time now schedule = some (rest.foldl min t) := by
      unfold get_next_reboot_time
      rw [hl]
    constructor
    · rw [hval]; rfl
    · intro r hr
      rw [hval] at hr
      obtain rfl := Option.some.inj hr
      exact lt_foldl_min now rest t (hall t (hl ▸ List.mem_cons_self t rest))
        (fun x hx => hall x (hl ▸ List.mem_cons_of_mem t hx))

/-- Witness for C2 at the schedule `[{hour 4, minute 0, enabled}]` and
`now` = 10:00:01 of day 0 (36001 s): the result exists and the next-day
instant 100800 s is strictly later than `now`. -/
theorem c2_next_reboot_strictly_future_checked :
    (get_next_reboot_time 36001 [⟨4, 0, some true⟩]).isSome = true ∧
      (36001 : Int) < 100800 :=
  ⟨(c2_next_reboot_strictly_future 36001 [⟨4, 0, some true⟩]
      ⟨⟨4, 0, some true⟩, by decide, by decide⟩).1.1,
    (c2_next_reboot_strictly_future 36001 [⟨4, 0, some true⟩]
      ⟨⟨4, 0, some true⟩, by decide, by decide⟩).1.2 100800 (by decide)⟩

/-- C3: `get_next_reboot_time` equals the specification's `nextRebootTime`
(minimum over enabled entries of today's `(hour, minute)` instant, advanced by
one day when ≤ `now`), it returns `none` exactly when no entries are enabled,
and with enabled entries 04:00 and 16:00 and `now` = 10:00 it returns 16:00
today. -/
theorem c3_next_reboot_is_min_over_enabled :
    (∀ now schedule, get_next_reboot_time now schedule = nextRebootTime now schedule) ∧
    (∀ now schedule, get_next_reboot_time now schedule = none ↔
      schedule.filter entryEnabled = []) ∧
    get_next_reboot_time (mkTime 0 10 0 0) [⟨4, 0, some true⟩, ⟨16, 0, some true⟩] =
      some (mkTime 0 16 0 0) := by
  refine ⟨?_, ?_, by decide⟩
  · intro now schedule
    unfold get_next_reboot_time nextRebootTime
    rw [show ((fun e : ScheduleEntry =>
        let c := startOfDay now + e.hour * 3600 + e.minute * 60
        if c ≤ now then c + secondsPerDay else c)) = candidateTime now from rfl]
    cases (schedule.filter entryEnabled).map (candidateTime now) with
    | nil => rfl
    | cons a as => rfl
  · intro now schedule
    cases hl : (schedule.filter entryEnabled).map (candidateTime now) with
    | nil =>
      have hf : schedule.filter entryEnabled = [] := List.map_eq_nil_iff.mp hl
      unfold get_next_reboot_time
      rw [hl]
      simp [hf]
    | cons t rest =>
      have hval : get_next_reboot_time now schedule = some (rest.foldl min t) := by
        unfold get_next_reboot_time
        rw [hl]
      rw [hval]
      constructor
      · intro hcontra
        exact absurd hcontra (by simp)
      · intro hnil
        rw [hnil] at hl
        simp at hl

/-- C4: a rule whose computed fire time is ≤ `now` is excluded from the plan
(`processInterval` drops it), and every announcement the planner does arm
fires strictly after `now`, so replanning the same inputs never schedules a
missed announcement late or immediately. -/
theorem c4_missed_rules_never_replanned (reboot_time now t : Int)
    (iv : AnnouncementRule) (intervals : List AnnouncementRule)
    (a : ScheduledAnnouncement)
    (hft : fireTimeOf reboot_time iv = some t) (hpast : t ≤ now)
    (ha : a ∈ schedule_announcements reboot_time now intervals) :
    processInterval reboot_time now iv = none ∧ now < a.fireAt := by
  constructor
  · unfold fireTimeOf at hft
    unfold processInterval
    cases hs : iv.seconds_before with
    | some s =>
      rw [hs] at hft
      obtain rfl := Option.some.inj hft
      dsimp only
      rw [if_neg (by omega)]
    | none =>
      rw [hs] at hft
      cases hm : iv.minutes_before with
      | some m =>
        rw [hm] at hft
        obtain rfl := Option.some.inj hft
        dsimp only
        rw [if_neg (by omega)]
      | none =>
        rfl
  · unfold schedule_announcements at ha
    obtain ⟨iv2, _, hiv2⟩ := List.mem_filterMap.mp ha
    exact processInterval_fireAt reboot_time now iv2 a hiv2

/-- Witness for C4 at reboot instant 1000 and `now` = 200: the rule with
offset 900 s (fire time 100 ≤ 200) is dropped, while the armed announcement
from the offset-100 rule fires at 900 > 200. -/
theorem c4_missed_rules_never_replanned_checked :
    processInterval 1000 200 ⟨some 900, none, "x"⟩ = none ∧ (200 : Int) < 900 := by
  have h := c4_missed_rules_never_replanned 1000 200 100 ⟨some 900, none, "x"⟩
    [⟨some 900, none, "x"⟩, ⟨some 100, none, "y"⟩] ⟨900, "y"⟩
    (by decide) (by decide) (by decide)
  exact ⟨h.1, h.2⟩

/-- C5: `send_command` returns failure whenever no child is attached (also
after the handle has been cleared) or the stdin pipe is absent or broken;
being a total function, it never raises — the source's `except` clause logs
and returns `False` instead of propagating. -/
theorem c5_send_command_fails_softly (server_process : Option ChildHandle)
    (command : String)
    (h : server_process = none ∨ ∃ p, server_process = some p ∧
      (p.stdinPipe = none ∨ p.stdinPipe = some PipeState.broken)) :
    send_command server_process command = false := by
  rcases h with rfl | ⟨p, rfl, hp | hp⟩
  · rfl
  · simp [send_command, hp]
  · simp [send_command, hp]

/-- Witness for C5 with the child handle cleared (`server_process = None`). -/
theorem c5_send_command_fails_softly_checked : send_command none "exit" = false :=
  c5_send_command_fails_softly none "exit" (Or.inl rfl)

/-- Counterexample to C6 as stated: even for a child that is alive and never
exits, the `stop` method's trace contains no forceful kill — its escalation
stops at `terminate()`, unlike the scheduled stop's three-tier ladder. -/
theorem c6_stop_has_no_kill_tier : Ev.killProc ∉ stop_events ⟨true, false⟩ := by
  decide

/-- C6 (amended): an external stop request sets `running = false`, then — if
a child is attached and alive — issues one cooperative exit command, waits up
to 30 units, and issues a terminate request if the child is still alive, but
no forceful kill; it then joins the control thread with a 10-unit timeout. -/
theorem c6_stop_two_tier_and_join :
    stop_events ⟨true, false⟩ =
      [Ev.setRunning false, Ev.sendCmd "exit", Ev.waitExit (some 30),
        Ev.terminateProc, Ev.joinThread 10] := by
  decide

/-- C7: the planner substitutes the offset's numeric value, in the rule's
declared unit, into the message template when the unit's placeholder is
present, and otherwise uses the template verbatim; the rule
`{minutes_before 10, message "Reboot in {minutes} minutes"}` with reboot at
`T` yields an announcement at `T - 600` s with text "Reboot in 10 minutes". -/
theorem c7_message_rendering (reboot_time now : Int) (h : now < reboot_time - 600) :
    processInterval reboot_time now ⟨none, some 10, "Reboot in {minutes} minutes"⟩ =
      some ⟨reboot_time - 600, "Reboot in 10 minutes"⟩ ∧
    ∀ (T n m : Int) (iv : AnnouncementRule), iv.seconds_before = none →
      iv.minutes_before = some m → strHasSub iv.message "{minutes}" = false →
      processInterval T n iv =
        (if n < T - m * 60 then some ⟨T - m * 60, iv.message⟩ else none) := by
  constructor
  · unfold processInterval
    dsimp only
    rw [show ((10 : Int) * 60) = 600 from by norm_num, if_pos h]
    rw [show (if strHasSub "Reboot in {minutes} minutes" "{minutes}" = true then
        strSubst "Reboot in {minutes} minutes" "{minutes}" (intStr 10)
      else "Reboot in {minutes} minutes") = "Reboot in 10 minutes" from by decide]
  · intro T n m iv hs hm hns
    unfold processInterval
    rw [hs, hm]
    dsimp only
    rw [hns]
    simp only [Bool.false_eq_true, if_false]

/-- Witness for C7 at reboot instant 1000 and `now` = 0. -/
theorem c7_message_rendering_checked :
    processInterval 1000 0 ⟨none, some 10, "Reboot in {minutes} minutes"⟩ =
      some ⟨1000 - 600, "Reboot in 10 minutes"⟩ :=
  (c7_message_rendering 1000 0 (by decide)).1

/-- C8: when the child exits within the 3-unit grace period, `start_server`
returns failure, the loop body sleeps 60 units and restarts the cycle, and the
fuelled loop keeps iterating (the failure never terminates the supervisor, so
`start_server` is retried on the next iteration). -/
theorem c8_start_failure_backs_off (env : CycleEnv) (n : Nat)
    (h1 : env.procAliveAtTop = false) (h2 : env.startEnv.exitsDuringGrace = true)
    (h3 : env.startEnv.exeFound = true) (h4 : env.startEnv.spawnRaises = false)
    (h5 : env.running = true) :
    (start_server env.startEnv).2 = false ∧
    loopBody env = [Ev.spawnChild, Ev.primeStdin, Ev.sleep 3, Ev.sleep 60] ∧
    reboot_cycle (n + 1) env = loopBody env ++ reboot_cycle n env := by
  have hss : start_server env.startEnv =
      ([Ev.spawnChild, Ev.primeStdin, Ev.sleep 3], false) := by
    unfold start_server
    rw [h3, h4, h2]
    rfl
  refine ⟨by rw [hss], ?_, ?_⟩
  · unfold loopBody
    rw [h1, hss]
    rfl
  · have hstep : reboot_cycle (n + 1) env =
        if env.running = true then loopBody env ++ reboot_cycle n env else [] := rfl
    rw [hstep, h5, if_pos rfl]

/-- Concrete environment for the C8 witness: no child attached, executable
found, spawn succeeds, child exits during the grace period. -/
def c8Env : CycleEnv := ⟨true, false, ⟨true, false, true⟩, 0, [], [], 30, ⟨true, true⟩⟩

/-- Witness for C8 in `c8Env`, with fuel for two iterations: the start fails,
the iteration trace is the grace sleep followed by the 60-unit backoff sleep,
and the loop runs a further iteration afterwards. -/
theorem c8_start_failure_backs_off_checked :
    (start_server c8Env.startEnv).2 = false ∧
    loopBody c8Env = [Ev.spawnChild, Ev.primeStdin, Ev.sleep 3, Ev.sleep 60] ∧
    reboot_cycle 2 c8Env = loopBody c8Env ++ reboot_cycle 1 c8Env :=
  c8_start_failure_backs_off c8Env 1 rfl rfl rfl rfl rfl

/-- Counterexample to C9 as stated: the source's `continue` for a rule with
neither offset emits no log at all — the event trace of the planner on a
single invalid rule is empty, so no skip is logged. -/
theorem c9_skip_emits_no_log : announce_events 1000 0 [⟨none, none, "bad"⟩] = [] := by
  decide

/-- C9 (amended): a rule with neither a seconds-offset nor a minutes-offset
is skipped silently — it produces no scheduled announcement and no log
entry — and planning of the remaining rules continues unchanged and without
error. -/
theorem c9_invalid_rule_skipped_silently (reboot_time now : Int)
    (iv : AnnouncementRule) (rest : List AnnouncementRule)
    (h1 : iv.seconds_before = none) (h2 : iv.minutes_before = none) :
    processInterval reboot_time now iv = none ∧
    schedule_announcements reboot_time now (iv :: rest) =
      schedule_announcements reboot_time now rest ∧
    announce_events reboot_time now (iv :: rest) = announce_events reboot_time now rest := by
  have hnone : processInterval reboot_time now iv = none := by
    unfold processInterval
    rw [h1, h2]
  have hplan : schedule_announcements reboot_time now (iv :: rest) =
      schedule_announcements reboot_time now rest := by
    unfold schedule_announcements
    rw [show sortDesc get_seconds_before (iv :: rest) =
      insDesc get_seconds_before iv (sortDesc get_seconds_before rest) from rfl]
    exact filterMap_insDesc _ _ _ hnone _
  refine ⟨hnone, hplan, ?_⟩
  unfold announce_events
  rw [hplan]

/-- Witness for C9 (amended) with one invalid rule followed by a valid one. -/
theorem c9_invalid_rule_skipped_silently_checked :
    processInterval 1000 0 ⟨none, none, "bad"⟩ = none ∧
    schedule_announcements 1000 0 [⟨none, none, "bad"⟩, ⟨some 100, none, "y"⟩] =
      schedule_announcements 1000 0 [⟨some 100, none, "y"⟩] ∧
    announce_events 1000 0 [⟨none, none, "bad"⟩, ⟨some 100, none, "y"⟩] =
      announce_events 1000 0 [⟨some 100, none, "y"⟩] :=
  c9_invalid_rule_skipped_silently 1000 0 ⟨none, none, "bad"⟩
    [⟨some 100, none, "y"⟩] rfl rfl

/-- C10: a schedule entry that omits the `enabled` field is treated as
enabled — only an explicit `enabled = false` excludes an entry — and
`get_next_reboot_time` uses such entries when computing the next instant. -/
theorem c10_omitted_enabled_defaults_true :
    (∀ h m, entryEnabled ⟨h, m, none⟩ = true) ∧
    (∀ e : ScheduleEntry, entryEnabled e = false ↔ e.enabled = some false) ∧
    get_next_reboot_time (mkTime 0 10 0 0) [⟨16, 0, none⟩] = some (mkTime 0 16 0 0) ∧
    get_next_reboot_time (mkTime 0 10 0 0) [⟨16, 0, some false⟩] = none := by
  refine ⟨fun h m => rfl, ?_, by decide, by decide⟩
  rintro ⟨h, m, (_ | b)⟩
  · simp [entryEnabled]
  · cases b <;> simp [entryEnabled]

end AutoReboot
